import Mathlib

/-!
Verification of the Tyrus dashboard module
(`src/trustyai/utils/tyrus.py` of trustyai-explainability-python).

The file shallowly embeds the module's own glue logic: the counterfactual
sampler of `Tyrus._generate_saliencies`, the Python-dict construction of
`cfdict`, the constructor's clamping of the display fraction, the tooltip
formatters, and the display-table builder of
`Tyrus._generate_counterfactual_datasource` together with the data-determined
skeleton of `Tyrus._get_byproduct_cf_plot`.  External libraries (numpy's
random draws, the explainers, bokeh rendering) enter only through explicit
oracles: random draws are supplied as functions `Nat -> Nat` / `Nat -> Rat`,
and machine floats are modelled at rational precision.
-/

/-- Python `int(q)` on a number: truncation toward zero (floor for
nonnegative arguments, ceiling for negative ones). -/
def pyInt (q : ℚ) : ℤ :=
  if 0 ≤ q then ⌊q⌋ else ⌈q⌉

/-- Models `np.random.choice(np.arange(0, n), size)`: `size` independent
uniform draws (with replacement) of indices below `n`.  The randomness is an
oracle `rng`; draw `i` is `rng i % n`, so every draw is a valid index when
`0 < n`. -/
def npChoice (n size : ℕ) (rng : ℕ → ℕ) : List ℕ :=
  (List.range size).map fun i => rng i % n

/-- The counterfactual sampling step of `Tyrus._generate_saliencies`
(tyrus.py lines 163-173): when `len(shap_cfs) + len(lime_cfs) >
fraction_counterfactuals_to_display`, each list is replaced by
`int(fraction * len)` uniform draws (with replacement) from itself;
otherwise both lists pass through unchanged. -/
def sampleCFs [Inhabited α] (fraction : ℚ) (shap_cfs lime_cfs : List α)
    (rngS rngL : ℕ → ℕ) : List α × List α :=
  if fraction < ((shap_cfs.length + lime_cfs.length : ℕ) : ℚ) then
    let shap_cf_idxs := npChoice shap_cfs.length
      (pyInt (fraction * (shap_cfs.length : ℚ))).toNat rngS
    let lime_cf_idxs := npChoice lime_cfs.length
      (pyInt (fraction * (lime_cfs.length : ℚ))).toNat rngL
    (shap_cf_idxs.map fun i => shap_cfs.getD i default,
     lime_cf_idxs.map fun i => lime_cfs.getD i default)
  else
    (shap_cfs, lime_cfs)

/-- Association-list lookup (first matching key), the reference semantics of
reading a Python dict that is represented as its insertion-ordered item
list. -/
def alookup [DecidableEq κ] : List (κ × ν) → κ → Option ν
  | [], _ => none
  | p :: ps, k => if p.1 = k then some p.2 else alookup ps k

/-- One Python dict write `d[k] = v`: if the key is present its value is
replaced in place, otherwise the pair is appended (insertion order). -/
def dictInsert [DecidableEq κ] (d : List (κ × ν)) (k : κ) (v : ν) :
    List (κ × ν) :=
  if k ∈ d.map Prod.fst then
    d.map fun p => if p.1 = k then (k, v) else p
  else
    d ++ [(k, v)]

/-- A Python dict built by writing a sequence of entries into `d` in order
(`dict.update`, and dict comprehensions when `d = []`). -/
def pyDictUpdate [DecidableEq κ] (d : List (κ × ν)) (entries : List (κ × ν)) :
    List (κ × ν) :=
  entries.foldl (fun acc e => dictInsert acc e.1 e.2) d

/-- A Python dict comprehension over `entries`. -/
def pyDict [DecidableEq κ] (entries : List (κ × ν)) : List (κ × ν) :=
  pyDictUpdate [] entries

/-- The `cfdict` construction of `Tyrus._generate_saliencies` (tyrus.py lines
176-177): a dict comprehension tagging the sampled SHAP entries, updated with
a dict comprehension tagging the sampled LIME entries.  Each harvested entry
is `(prediction key, preservation-mask value)`. -/
def buildCfdict [DecidableEq κ] (shap_cfs lime_cfs : List (κ × ν)) :
    List (κ × (String × ν)) :=
  pyDictUpdate (pyDict (shap_cfs.map fun e => (e.1, ("SHAP", e.2))))
    (pyDict (lime_cfs.map fun e => (e.1, ("LIME", e.2))))

/-- The stored display fraction of `Tyrus.__init__` (tyrus.py lines 125-127):
`max(0, min(1, kwargs.get("fraction_counterfactuals_to_display", 0.1)))`. -/
def tyrusFraction (kw : Option ℚ) : ℚ :=
  max 0 (min 1 (kw.getD (1 / 10)))

/-- The stored notebook flag of `Tyrus.__init__` (tyrus.py line 128):
`kwargs.get("notebook", False)`. -/
def tyrusNotebook (kw : Option Bool) : Bool :=
  kw.getD false

/-- A value held in a display-table cell (a Python scalar: the numeric model
outputs, tooltip strings and the `Unchanged` flag). -/
inductive Cell
  | num (q : ℚ)
  | str (s : String)
  | bool (b : Bool)
deriving DecidableEq, Inhabited

/-- Numeric content of a cell (model outputs and the `Diff` column). -/
def cellNum : Cell → ℚ
  | Cell.num q => q
  | _ => 0

/-- String content of a cell (the `Tooltip Raw` column). -/
def cellStr : Cell → String
  | Cell.str s => s
  | _ => ""

/-- Boolean content of a cell (the `Unchanged` column). -/
def cellBool : Cell → Bool
  | Cell.bool b => b
  | _ => false

/-- Fixed-point rendering of a rational with two decimals, modelling Python's
`"{:.2f}".format` at rational precision (ties rounded up; the binary-float
rounding of CPython is below the granularity any claim here depends on). -/
def format2f (q : ℚ) : String :=
  let n : ℕ := (⌊|q| * 100 + 1 / 2⌋).toNat
  let frac : ℕ := n % 100
  (if q < 0 then "-" else "") ++ toString (n / 100) ++ "." ++
    (if frac < 10 then "0" else "") ++ toString frac

/-- Models `_formatter` (tyrus.py lines 37-39) composed with Python's string
interpolation: floats are rendered with two decimals, every other scalar by
its own string rendering. -/
def _formatter : Cell → String
  | Cell.num q => format2f q
  | Cell.str s => s
  | Cell.bool b => if b then "True" else "False"

/-- Models `_tooltip_format` (tyrus.py lines 42-48): one changed-feature row
of a counterfactual tooltip table. -/
def _tooltip_format (row_values : List String) : String :=
  "<tr> <td><b>" ++ row_values.getD 0 "" ++ ":"
    ++ "&nbsp;</b> </td> <td>" ++ row_values.getD 1 "" ++ "</td>"
    ++ " <td>&nbsp;&nbsp;to&nbsp;&nbsp;</td> <td>" ++ row_values.getD 2 ""
    ++ "</td> </tr>"

/-- Models `_original_feature_tooltip_format` (tyrus.py lines 51-56): one
unchanged-feature row of a tooltip table (only the first two entries of
`row_values` are interpolated). -/
def _original_feature_tooltip_format (row_values : List String) : String :=
  "<tr> <td><b>" ++ row_values.getD 0 "" ++ ":&nbsp;</b> </td> <td>"
    ++ row_values.getD 1 "" ++ "</td> <td></td> <td></td> </tr>"

/-- Modelled from the spec: `bold_green_html` lives in
`trustyai.utils._visualisation`, outside this repository's staged sources;
the spec describes it as colored-delta HTML markup of its argument. -/
def bold_green_html (s : String) : String :=
  "<b><font color=green>" ++ s ++ "</font></b>"

/-- Modelled from the spec: `bold_red_html` lives in
`trustyai.utils._visualisation`, outside this repository's staged sources;
the spec describes it as colored-delta HTML markup of its argument. -/
def bold_red_html (s : String) : String :=
  "<b><font color=red>" ++ s ++ "</font></b>"

/-- Modelled from the spec: `output_html` lives in
`trustyai.utils._visualisation`, outside this repository's staged sources;
the spec describes it as HTML markup of an output name. -/
def output_html (s : String) : String :=
  "<mark>" ++ s ++ "</mark>"

/-- Models `format_cf_tooltip` (tyrus.py lines 60-78): wraps a record's raw
feature rows into the full tooltip, choosing the header from the `unchanged`
flag. -/
def format_cf_tooltip (raw_tooltip output_name : String) (output_val : Cell)
    (unchanged : Bool) : String :=
  if unchanged then
    "<h3>Original Input</h3>"
      ++ ((output_name.splitOn "from <b").headD "").trim ++ ": "
      ++ _formatter output_val
      ++ "<table>" ++ raw_tooltip ++ "</table>"
  else
    "<h3>Counterfactual</h3>"
      ++ "Change " ++ output_name ++ " to "
      ++ bold_green_html (_formatter output_val) ++ " by changing:"
      ++ "<table>" ++ raw_tooltip ++ "</table>"

/-- The per-feature loop of `Tyrus._generate_counterfactual_datasource`
(tyrus.py lines 211-227), walking the prediction's features in step with the
preservation mask: returns (`raw_tooltip` before the trailing `Found by`
row, `original_tooltip`, `differences`).  `formatted_features` is the
formatted original-feature dict read by name. -/
def tooltipLoop (formatted_features : String → String) :
    List (String × Cell) → List Bool → List String × List String × ℕ
  | [], _ => ([], [], 0)
  | _ :: _, [] => ([], [], 0)
  | (fname, fv) :: fs, b :: bs =>
    let fval := _formatter fv
    let rest := tooltipLoop formatted_features fs bs
    if b then
      (rest.1,
       _original_feature_tooltip_format [fname, formatted_features fname, fval]
         :: rest.2.1,
       rest.2.2)
    else
      (_tooltip_format [fname, formatted_features fname, fval] :: rest.1,
       _original_feature_tooltip_format [fname, formatted_features fname, fval]
         :: rest.2.1,
       rest.2.2 + 1)

/-- The changed-feature count (`differences`) of one counterfactual record. -/
def rowDifferences (formatted_features : String → String)
    (features : List (String × Cell)) (preservation_mask : List Bool) : ℕ :=
  (tooltipLoop formatted_features features preservation_mask).2.2

/-- The `Tooltip Raw` string of one record (tyrus.py lines 228-233): the
original-feature rows when nothing changed, otherwise the changed-feature
rows followed by the `Found by` row naming the originating explainer. -/
def rowTooltipRaw (formatted_features : String → String)
    (features : List (String × Cell)) (preservation_mask : List Bool)
    (source_exp : String) : String :=
  let t := tooltipLoop formatted_features features preservation_mask
  String.join
    (if t.2.2 = 0 then t.2.1
     else t.1 ++ [_original_feature_tooltip_format ["Found by", source_exp, "", ""]])

/-- One model output of a prediction: its name and `getValue().asNumber()`. -/
structure Output where
  name : String
  num : ℚ
deriving DecidableEq, Inhabited

/-- A prediction object held as a `cfdict` key: its input features (name and
scalar value) and its outputs. -/
structure Prediction where
  features : List (String × Cell)
  outputs : List Output
deriving DecidableEq, Inhabited

/-- A display-table row: the insertion-ordered columns of the dict built per
counterfactual in `Tyrus._generate_counterfactual_datasource`. -/
abbrev Row := List (String × Cell)

/-- A `cfdict` entry: the prediction key and its
(originating explainer, preservation mask) value. -/
abbrev CfEntry := Prediction × (String × List Bool)

/-- The `output_column_names` built from the first counterfactual (tyrus.py
lines 199-206): one `"<output> from <original value>"` label per output,
reading the formatted original output value by name (a missing name is a
Python `KeyError`). -/
def mkOutputColumnNames (outputs : List Output)
    (original_output_values : List (String × String)) :
    Except String (List String) :=
  outputs.mapM fun o =>
    match alookup original_output_values o.name with
    | some v => Except.ok (output_html o.name ++ " from " ++ bold_red_html v)
    | none => Except.error "KeyError"

/-- One per-output cell of a display-table row (tyrus.py lines 207-210):
`output_column_names[i]` keys the i-th output value; an index beyond the
name list is a Python `IndexError`. -/
def outputCell (output_column_names : List String) (io : ℕ × Output) :
    Except String (String × Cell) :=
  match output_column_names.get? io.1 with
  | some cname => Except.ok (cname, Cell.num io.2.num)
  | none => Except.error "IndexError"

/-- One row of the display table (tyrus.py lines 207-236): the per-output
value cells keyed by `output_column_names[i]` (a short name list is a Python
`IndexError`), then `Tooltip Raw`, `Unchanged` and `Diff`. -/
def buildRow (output_column_names : List String)
    (formatted_features : String → String) (pred : Prediction)
    (source_exp : String) (preservation_mask : List Bool) :
    Except String Row := do
  let outCells ← pred.outputs.enum.mapM (outputCell output_column_names)
  Except.ok (outCells ++
    [("Tooltip Raw", Cell.str
        (rowTooltipRaw formatted_features pred.features preservation_mask
          source_exp)),
     ("Unchanged", Cell.bool
        (decide (rowDifferences formatted_features pred.features
          preservation_mask = 0))),
     ("Diff", Cell.num
        ((rowDifferences formatted_features pred.features preservation_mask
          : ℕ) : ℚ))])

/-- The columns of `pd.DataFrame(rows)`: the row keys in first-occurrence
order (an empty row list yields a frame with no columns). -/
def dfColumns (df : List Row) : List String :=
  ((df.map fun r => r.map Prod.fst).flatten).dedup

/-- Reading a frame column (`df[c]`): the per-row values when `c` is a
column of the frame, a Python `KeyError` otherwise (so any read from the
empty frame fails). -/
def dfGetColumn (df : List Row) (c : String) : Except String (List Cell) :=
  if c ∈ dfColumns df then
    Except.ok (df.map fun r => (alookup r c).getD (Cell.num 0))
  else
    Except.error ("KeyError: " ++ c)

/-- The recursion behind `pandas.DataFrame.drop_duplicates`: keep each row's
first occurrence, dropping rows equal to one already kept (`seen`). -/
def dropDupRows [DecidableEq α] (seen : List α) : List α → List α
  | [] => []
  | x :: xs =>
    if x ∈ seen then dropDupRows seen xs
    else x :: dropDupRows (seen ++ [x]) xs

/-- Models `data_source.drop_duplicates()` (tyrus.py line 239): drop exact
duplicate rows, keeping first occurrences. -/
def drop_duplicates [DecidableEq α] (l : List α) : List α :=
  dropDupRows [] l

/-- The elementwise content of `data_source["Diff"] + np.random.rand(n) / 3`
assigned as the `Diff Jittered` column: row `i` gains its `Diff` value plus
`rand i / 3`. -/
def addJitterRows (rand : ℕ → ℚ) : ℕ → List Row → List Row
  | _, [] => []
  | i, r :: rs =>
    (r ++ [("Diff Jittered",
       Cell.num (cellNum ((alookup r "Diff").getD (Cell.num 0)) + rand i / 3))])
      :: addJitterRows rand (i + 1) rs

/-- Models tyrus.py lines 240-242: reading `data_source["Diff"]` (a
`KeyError` when the frame has no such column, in particular when it is
empty) and assigning the jittered column.  `rand` is the `np.random.rand`
oracle, one uniform `[0,1)` draw per row. -/
def addJitterColumn (df : List Row) (rand : ℕ → ℚ) :
    Except String (List Row) :=
  if "Diff" ∈ dfColumns df then Except.ok (addJitterRows rand 0 df)
  else Except.error "KeyError: Diff"

/-- Models tyrus.py lines 244-249: one derived tooltip column per output,
applying `format_cf_tooltip` to each row's `Tooltip Raw`, per-output value
and `Unchanged` cells. -/
def addTooltipColumns (df : List Row)
    (output_names output_column_names : List String) : List Row :=
  output_column_names.enum.foldl
    (fun acc ic =>
      acc.map fun r =>
        r ++ [("Tooltip " ++ output_names.getD ic.1 "",
          Cell.str (format_cf_tooltip
            (cellStr ((alookup r "Tooltip Raw").getD (Cell.str "")))
            ic.2
            ((alookup r ic.2).getD (Cell.num 0))
            (cellBool ((alookup r "Unchanged").getD (Cell.bool false)))))])
    df

/-- The `output_column_names` a run of
`Tyrus._generate_counterfactual_datasource` uses: computed from the first
`cfdict` entry (loop index 0), and left empty by an empty `cfdict` (the loop
never runs). -/
def datasourceColumnNames (cfdict : List CfEntry)
    (original_output_values : List (String × String)) :
    Except String (List String) :=
  match cfdict.head? with
  | none => Except.ok []
  | some e => mkOutputColumnNames e.1.outputs original_output_values

/-- The `output_names` of the same run, likewise fixed by the first entry. -/
def datasourceOutputNames (cfdict : List CfEntry) : List String :=
  match cfdict.head? with
  | none => []
  | some e => e.1.outputs.map fun o => o.name

/-- Models `Tyrus._generate_counterfactual_datasource` (tyrus.py lines
179-251): build one row per `cfdict` entry, drop duplicate rows, read the
`Diff` column to assign the jitter, then derive the per-output tooltip
columns.  `original_features` are `self.inputs` (name, scalar value);
`original_output_values` the formatted `self.outputs` values by name. -/
def generate_counterfactual_datasource
    (original_features : List (String × Cell))
    (original_output_values : List (String × String))
    (cfdict : List CfEntry) (rand : ℕ → ℚ) : Except String (List Row) := do
  let formatted_features := fun n =>
    ((alookup original_features n).map _formatter).getD ""
  let output_column_names ← datasourceColumnNames cfdict original_output_values
  let rows ← cfdict.mapM fun e =>
    buildRow output_column_names formatted_features e.1 e.2.1 e.2.2
  let deduped := drop_duplicates rows
  let jittered ← addJitterColumn deduped rand
  Except.ok (addTooltipColumns jittered (datasourceOutputNames cfdict)
    output_column_names)

/-- Whether Python's `sub in s` holds: `str.split` yields at least two parts
exactly when the separator occurs. -/
def strContains (s sub : String) : Bool :=
  2 ≤ (s.splitOn sub).length

/-- The data-determined skeleton of `Tyrus._get_byproduct_cf_plot` (tyrus.py
lines 253-293): the output fields are those of the first `cfdict` key (an
`IndexError` on an empty dict); for each, the first frame column whose name
contains the output name is the scatter's x column (an `IndexError` when
none matches), and the `Diff` column is read for the color scale.  The bokeh
figure construction itself is external rendering. -/
def get_byproduct_cf_plot (cfdict : List CfEntry)
    (cf_data_source : List Row) : Except String (List (String × String)) := do
  let firstPred ← match cfdict.head? with
    | some e => Except.ok e.1
    | none => Except.error "IndexError"
  firstPred.outputs.mapM fun o => do
    let _diff ← dfGetColumn cf_data_source "Diff"
    match ((dfColumns cf_data_source).filter fun x =>
        strContains x o.name).head? with
    | some cname => Except.ok (o.name, cname)
    | none => Except.error "IndexError"

/-- The dashboard pipeline of `Tyrus.run` after the explainer calls
(tyrus.py lines 357-373 with lines 157-177): sample the harvested
counterfactual lists, build `cfdict`, build the display table, then the
counterfactual plots; an error at any stage aborts the run with no
partial result. -/
def tyrusRunPipeline (fraction : ℚ)
    (original_features : List (String × Cell))
    (original_output_values : List (String × String))
    (shap_cfs lime_cfs : List (Prediction × List Bool))
    (rngS rngL : ℕ → ℕ) (rand : ℕ → ℚ) :
    Except String (List Row × List (String × String)) := do
  let sampled := sampleCFs fraction shap_cfs lime_cfs rngS rngL
  let cfdict := buildCfdict sampled.1 sampled.2
  let df ← generate_counterfactual_datasource original_features
    original_output_values cfdict rand
  let plots ← get_byproduct_cf_plot cfdict df
  Except.ok (df, plots)

/-- The `Diff` value of a display-table row. -/
def diffOf (r : Row) : ℚ :=
  cellNum ((alookup r "Diff").getD (Cell.num 0))

/-- The `Diff Jittered` value of a display-table row. -/
def jitterOf (r : Row) : ℚ :=
  cellNum ((alookup r "Diff Jittered").getD (Cell.num 0))

/-- Concrete fixture for witness statements: a prediction with one output. -/
def predOneOutput : Prediction :=
  ⟨[], [⟨"y", 1⟩]⟩

/-- Concrete fixture for witness statements: a prediction with two outputs. -/
def predTwoOutputs : Prediction :=
  ⟨[], [⟨"y", 1⟩, ⟨"z", 2⟩]⟩

theorem alookup_append_of_none [DecidableEq κ] {l₁ : List (κ × ν)}
    (l₂ : List (κ × ν)) {k : κ} (h : alookup l₁ k = none) :
    alookup (l₁ ++ l₂) k = alookup l₂ k := by
  induction l₁ with
  | nil => rfl
  | cons p ps ih =>
    rw [alookup] at h
    rw [List.cons_append, alookup]
    split at h
    · exact absurd h (by simp)
    · rw [if_neg (by assumption)]
      exact ih h

theorem alookup_append_of_some [DecidableEq κ] {l₁ : List (κ × ν)}
    (l₂ : List (κ × ν)) {k : κ} {v : ν} (h : alookup l₁ k = some v) :
    alookup (l₁ ++ l₂) k = some v := by
  induction l₁ with
  | nil => exact absurd h (by simp [alookup])
  | cons p ps ih =>
    rw [alookup] at h
    rw [List.cons_append, alookup]
    split at h
    · rw [if_pos (by assumption)]; exact h
    · rw [if_neg (by assumption)]
      exact ih h

theorem addJitterRows_getD (rand : ℕ → ℚ) (df : List Row) (i j : ℕ)
    (hj : j < df.length) :
    (addJitterRows rand i df).getD j [] =
      df.getD j [] ++ [("Diff Jittered",
        Cell.num (diffOf (df.getD j []) + rand (i + j) / 3))] := by
  induction df generalizing i j with
  | nil => exact absurd hj (by simp)
  | cons r rs ih =>
    cases j with
    | zero => simp [addJitterRows, diffOf]
    | succ j =>
      have hj' : j < rs.length := by simpa using hj
      have := ih (i + 1) j hj'
      simpa [addJitterRows, Nat.add_assoc, Nat.add_comm 1 j] using this

/-- C5: the stored display fraction is `max(0, min(1, value))` for every
value of the keyword, hence lies in `[0, 1]`; absent keywords leave the
fraction at `0.1` and the notebook flag false. -/
theorem stored_fraction_clamped (v : ℚ) (kw : Option ℚ) :
    tyrusFraction (some v) = max 0 (min 1 v)
      ∧ 0 ≤ tyrusFraction kw ∧ tyrusFraction kw ≤ 1
      ∧ tyrusFraction none = 1 / 10
      ∧ tyrusNotebook none = false
      ∧ tyrusNotebook (some true) = true ∧ tyrusNotebook (some false) = false := by
  refine ⟨rfl, le_max_left _ _, ?_, ?_, rfl, rfl, rfl⟩
  · rw [tyrusFraction]
    rcases le_total (kw.getD (1 / 10)) 1 with h | h
    · exact max_le (by norm_num) (le_trans (min_le_right _ _) h)
    · exact max_le (by norm_num) (min_le_left _ _)
  · rw [tyrusFraction]
    norm_num

/-- C7: every row of the jittered table carries a `Diff Jittered` value in
the half-open interval `[Diff, Diff + 1/3)`, the `Diff` value being the
row's changed-feature count. -/
theorem jitter_within_third (df : List Row) (rand : ℕ → ℚ) (i : ℕ)
    (hrand : ∀ j, 0 ≤ rand j ∧ rand j < 1)
    (hfresh : ∀ r ∈ df, alookup r "Diff Jittered" = none)
    (hi : i < df.length) (df' : List Row)
    (hok : addJitterColumn df rand = Except.ok df') :
    diffOf (df'.getD i []) ≤ jitterOf (df'.getD i [])
      ∧ jitterOf (df'.getD i []) < diffOf (df'.getD i []) + 1 / 3 := by
  rw [addJitterColumn] at hok
  split at hok
  case isFalse => exact absurd hok (by simp)
  case isTrue =>
    have hdf' : df' = addJitterRows rand 0 df := by
      cases hok; rfl
    subst hdf'
    have hrow := addJitterRows_getD rand df 0 i hi
    rw [hrow]
    have hmem : df.getD i [] ∈ df := by
      rw [List.getD_eq_getElem df [] hi]
      exact List.getElem_mem hi
    have hnone := hfresh _ hmem
    have hjit : jitterOf (df.getD i [] ++ [("Diff Jittered",
        Cell.num (diffOf (df.getD i []) + rand (0 + i) / 3))])
        = diffOf (df.getD i []) + rand i / 3 := by
      rw [jitterOf, alookup_append_of_none _ hnone]
      simp [alookup, cellNum]
    have hdiff : diffOf (df.getD i [] ++ [("Diff Jittered",
        Cell.num (diffOf (df.getD i []) + rand (0 + i) / 3))])
        = diffOf (df.getD i []) := by
      rw [diffOf]
      cases hcase : alookup (df.getD i []) "Diff" with
      | none =>
        rw [alookup_append_of_none _ hcase]
        rw [diffOf, hcase]
        simp [alookup, cellNum]
      | some v =>
        rw [alookup_append_of_some _ hcase, diffOf, hcase]
    rw [hjit, hdiff]
    obtain ⟨h0, h1⟩ := hrand i
    constructor
    · linarith
    · linarith

/-- C7 witness: the bounds at a concrete one-row table and concrete draw. -/
theorem jitter_within_third_witness :
    diffOf (((addJitterRows (fun _ => 1 / 2) 0
        [[("Diff", Cell.num 2)]]).getD 0 []))
      ≤ jitterOf (((addJitterRows (fun _ => 1 / 2) 0
        [[("Diff", Cell.num 2)]]).getD 0 []))
      ∧ jitterOf (((addJitterRows (fun _ => 1 / 2) 0
        [[("Diff", Cell.num 2)]]).getD 0 []))
        < diffOf (((addJitterRows (fun _ => 1 / 2) 0
        [[("Diff", Cell.num 2)]]).getD 0 [])) + 1 / 3 :=
  jitter_within_third [[("Diff", Cell.num 2)]] (fun _ => 1 / 2) 0
    (fun _ => by norm_num)
    (by intro r hr; simp at hr; subst hr; rfl)
    (by norm_num)
    (addJitterRows (fun _ => 1 / 2) 0 [[("Diff", Cell.num 2)]])
    (by rw [addJitterColumn, if_pos]; rw [dfColumns]; simp)

theorem sampleCFs_lengths [Inhabited α] (fraction : ℚ) (h0 : 0 ≤ fraction)
    (h1 : fraction ≤ 1) (shap_cfs lime_cfs : List α) (rngS rngL : ℕ → ℕ) :
    (sampleCFs fraction shap_cfs lime_cfs rngS rngL).1.length
        = (⌊fraction * (shap_cfs.length : ℚ)⌋).toNat
      ∧ (sampleCFs fraction shap_cfs lime_cfs rngS rngL).2.length
        = (⌊fraction * (lime_cfs.length : ℚ)⌋).toNat := by
  have hpy : ∀ n : ℕ, pyInt (fraction * (n : ℚ)) = ⌊fraction * (n : ℚ)⌋ := by
    intro n
    rw [pyInt, if_pos (mul_nonneg h0 (Nat.cast_nonneg _))]
  rw [sampleCFs]
  split
  case isTrue h =>
    simp [npChoice, hpy]
  case isFalse h =>
    push_neg at h
    have hn : shap_cfs.length + lime_cfs.length ≤ 1 := by
      have hc : ((shap_cfs.length + lime_cfs.length : ℕ) : ℚ) ≤ 1 :=
        le_trans h h1
      exact_mod_cast hc
    rcases Nat.eq_zero_or_pos (shap_cfs.length + lime_cfs.length) with hz | hpos
    · have hs : shap_cfs.length = 0 := by omega
      have hl : lime_cfs.length = 0 := by omega
      rw [hs, hl]
      simp
    · have hfrac : fraction = 1 := by
        have h1le : (1 : ℚ) ≤ ((shap_cfs.length + lime_cfs.length : ℕ) : ℚ) := by
          exact_mod_cast hpos
        exact le_antisymm h1 (le_trans h1le h)
      subst hfrac
      simp

theorem sampleCFs_of_le [Inhabited α] (fraction : ℚ)
    (shap_cfs lime_cfs : List α) (rngS rngL : ℕ → ℕ)
    (h : ((shap_cfs.length + lime_cfs.length : ℕ) : ℚ) ≤ fraction) :
    sampleCFs fraction shap_cfs lime_cfs rngS rngL = (shap_cfs, lime_cfs) := by
  rw [sampleCFs, if_neg (not_lt.mpr h)]

theorem sampleCFs_mem_fst [Inhabited α] (fraction : ℚ)
    (shap_cfs lime_cfs : List α) (rngS rngL : ℕ → ℕ) (x : α)
    (hx : x ∈ (sampleCFs fraction shap_cfs lime_cfs rngS rngL).1) :
    x ∈ shap_cfs := by
  rw [sampleCFs] at hx
  split at hx
  case isTrue h =>
    simp only [npChoice, List.mem_map, List.mem_range] at hx
    obtain ⟨i, ⟨j, _, hji⟩, hix⟩ := hx
    rcases Nat.eq_zero_or_pos shap_cfs.length with hz | hpos
    · have : (pyInt (fraction * (shap_cfs.length : ℚ))).toNat = 0 := by
        rw [hz]
        simp [pyInt]
      simp only [npChoice, this, List.range_zero, List.map_nil] at *
      omega
    · have hlt : i < shap_cfs.length := by
        rw [← hji]
        exact Nat.mod_lt _ hpos
      rw [← hix, List.getD_eq_getElem shap_cfs default hlt]
      exact List.getElem_mem hlt
  case isFalse h =>
    exact hx

theorem sampleCFs_mem_snd [Inhabited α] (fraction : ℚ)
    (shap_cfs lime_cfs : List α) (rngS rngL : ℕ → ℕ) (y : α)
    (hy : y ∈ (sampleCFs fraction shap_cfs lime_cfs rngS rngL).2) :
    y ∈ lime_cfs := by
  rw [sampleCFs] at hy
  split at hy
  case isTrue h =>
    simp only [npChoice, List.mem_map, List.mem_range] at hy
    obtain ⟨i, ⟨j, _, hji⟩, hiy⟩ := hy
    rcases Nat.eq_zero_or_pos lime_cfs.length with hz | hpos
    · have : (pyInt (fraction * (lime_cfs.length : ℚ))).toNat = 0 := by
        rw [hz]
        simp [pyInt]
      simp only [npChoice, this, List.range_zero, List.map_nil] at *
      omega
    · have hlt : i < lime_cfs.length := by
        rw [← hji]
        exact Nat.mod_lt _ hpos
      rw [← hiy, List.getD_eq_getElem lime_cfs default hlt]
      exact List.getElem_mem hlt
  case isFalse h =>
    exact hy

/-- C1: for every display fraction in `[0, 1]`, each explainer's list
retains exactly `floor(fraction * original_count)` counterfactuals after
sampling, and both lists pass through unchanged when the combined count does
not exceed the trigger threshold (the fraction itself, tyrus.py line 163). -/
theorem sampling_counts_eq_floor [Inhabited α] (fraction : ℚ)
    (h0 : 0 ≤ fraction) (h1 : fraction ≤ 1)
    (shap_cfs lime_cfs : List α) (rngS rngL : ℕ → ℕ) :
    ((sampleCFs fraction shap_cfs lime_cfs rngS rngL).1.length
        = (⌊fraction * (shap_cfs.length : ℚ)⌋).toNat
      ∧ (sampleCFs fraction shap_cfs lime_cfs rngS rngL).2.length
        = (⌊fraction * (lime_cfs.length : ℚ)⌋).toNat)
      ∧ (((shap_cfs.length + lime_cfs.length : ℕ) : ℚ) ≤ fraction →
        sampleCFs fraction shap_cfs lime_cfs rngS rngL
          = (shap_cfs, lime_cfs)) :=
  ⟨sampleCFs_lengths fraction h0 h1 shap_cfs lime_cfs rngS rngL,
   sampleCFs_of_le fraction shap_cfs lime_cfs rngS rngL⟩

/-- C1 witness: the counts at fraction 1/2 on concrete lists. -/
theorem sampling_counts_eq_floor_witness :
    ((sampleCFs (1 / 2 : ℚ) [5, 6] [7] (fun _ => 0) (fun _ => 0)
        : List ℕ × List ℕ).1.length
        = (⌊(1 / 2 : ℚ) * ((2 : ℕ) : ℚ)⌋).toNat
      ∧ (sampleCFs (1 / 2 : ℚ) [5, 6] [7] (fun _ => 0) (fun _ => 0)
        : List ℕ × List ℕ).2.length
        = (⌊(1 / 2 : ℚ) * ((1 : ℕ) : ℚ)⌋).toNat)
      ∧ ((((2 + 1 : ℕ) : ℚ)) ≤ (1 / 2 : ℚ) →
        sampleCFs (1 / 2 : ℚ) [5, 6] [7] (fun _ => 0) (fun _ => 0)
          = ([5, 6], [7])) :=
  sampling_counts_eq_floor (1 / 2) (by norm_num) (by norm_num)
    [5, 6] [7] (fun _ => 0) (fun _ => 0)

/-- C2 counterexample: at fraction 1 with harvested SHAP list `[0, 1]`, the
draw that picks index 0 twice yields `[0, 0]`: element 1 is dropped and
element 0 duplicated, so the sampled list does not contain exactly the same
elements as the original. -/
theorem fraction_one_not_exact_counterexample :
    (sampleCFs (1 : ℚ) [0, 1] ([] : List ℕ) (fun _ => 0) (fun _ => 0)).1
        = [0, 0]
      ∧ ((sampleCFs (1 : ℚ) [0, 1] ([] : List ℕ)
          (fun _ => 0) (fun _ => 0)).1).count 1 = 0
      ∧ ([0, 1] : List ℕ).count 1 = 1
      ∧ ((sampleCFs (1 : ℚ) [0, 1] ([] : List ℕ)
          (fun _ => 0) (fun _ => 0)).1).count 0 = 2
      ∧ ([0, 1] : List ℕ).count 0 = 1 := by
  have h : (sampleCFs (1 : ℚ) [0, 1] ([] : List ℕ)
      (fun _ => 0) (fun _ => 0)).1 = [0, 0] := by
    simp [sampleCFs, npChoice, pyInt]
  exact ⟨h, by rw [h]; decide, by decide, by rw [h]; decide, by decide⟩

/-- C2 as amended: at fraction 1 the sampling step preserves the number of
counterfactuals of each explainer and draws every retained element from the
corresponding original list, but (the draws being with replacement) the
lists themselves are guaranteed unchanged only when the combined count is at
most 1. -/
theorem fraction_one_sampling [Inhabited α] (shap_cfs lime_cfs : List α)
    (rngS rngL : ℕ → ℕ) :
    ((sampleCFs (1 : ℚ) shap_cfs lime_cfs rngS rngL).1.length
        = shap_cfs.length
      ∧ (sampleCFs (1 : ℚ) shap_cfs lime_cfs rngS rngL).2.length
        = lime_cfs.length)
      ∧ (∀ x ∈ (sampleCFs (1 : ℚ) shap_cfs lime_cfs rngS rngL).1,
          x ∈ shap_cfs)
      ∧ (∀ y ∈ (sampleCFs (1 : ℚ) shap_cfs lime_cfs rngS rngL).2,
          y ∈ lime_cfs)
      ∧ (shap_cfs.length + lime_cfs.length ≤ 1 →
        sampleCFs (1 : ℚ) shap_cfs lime_cfs rngS rngL
          = (shap_cfs, lime_cfs)) := by
  refine ⟨?_, ?_, ?_, ?_⟩
  · have h := sampleCFs_lengths (1 : ℚ) (by norm_num) (by norm_num)
      shap_cfs lime_cfs rngS rngL
    simpa using h
  · exact fun x hx => sampleCFs_mem_fst (1 : ℚ) shap_cfs lime_cfs rngS rngL x hx
  · exact fun y hy => sampleCFs_mem_snd (1 : ℚ) shap_cfs lime_cfs rngS rngL y hy
  · intro hle
    apply sampleCFs_of_le
    exact_mod_cast hle

theorem alookup_eq_none_of_not_mem [DecidableEq κ] {l : List (κ × ν)} {k : κ}
    (h : k ∉ l.map Prod.fst) : alookup l k = none := by
  induction l with
  | nil => rfl
  | cons p ps ih =>
    simp only [List.map_cons, List.mem_cons] at h
    push_neg at h
    rw [alookup, if_neg (fun he => h.1 he.symm)]
    exact ih h.2

theorem alookup_isSome_of_mem [DecidableEq κ] {l : List (κ × ν)} {k : κ}
    (h : k ∈ l.map Prod.fst) : ∃ v, alookup l k = some v := by
  induction l with
  | nil => simp at h
  | cons p ps ih =>
    rw [alookup]
    by_cases hp : p.1 = k
    · exact ⟨p.2, by rw [if_pos hp]⟩
    · rw [if_neg hp]
      apply ih
      simp only [List.map_cons, List.mem_cons] at h
      rcases h with h | h
      · exact absurd h.symm hp
      · exact h

theorem mem_of_alookup_eq_some [DecidableEq κ] {l : List (κ × ν)} {k : κ}
    {v : ν} (h : alookup l k = some v) : k ∈ l.map Prod.fst := by
  induction l with
  | nil => exact absurd h (by simp [alookup])
  | cons p ps ih =>
    rw [alookup] at h
    split at h
    case isTrue hp =>
      simp only [List.map_cons, List.mem_cons]
      exact Or.inl hp.symm
    case isFalse hp =>
      simp only [List.map_cons, List.mem_cons]
      exact Or.inr (ih h)

theorem dictInsert_keys_of_mem [DecidableEq κ] {d : List (κ × ν)} {k : κ}
    (v : ν) (h : k ∈ d.map Prod.fst) :
    (dictInsert d k v).map Prod.fst = d.map Prod.fst := by
  rw [dictInsert, if_pos h, List.map_map]
  apply List.map_congr_left
  intro p _
  by_cases hp : p.1 = k
  · simp [hp]
  · simp [hp]

theorem dictInsert_keys_of_not_mem [DecidableEq κ] {d : List (κ × ν)} {k : κ}
    (v : ν) (h : k ∉ d.map Prod.fst) :
    (dictInsert d k v).map Prod.fst = d.map Prod.fst ++ [k] := by
  rw [dictInsert, if_neg h, List.map_append]
  rfl

theorem mem_keys_dictInsert [DecidableEq κ] {d : List (κ × ν)} {k k' : κ}
    (v : ν) : k' ∈ (dictInsert d k v).map Prod.fst
      ↔ k' ∈ d.map Prod.fst ∨ k' = k := by
  by_cases h : k ∈ d.map Prod.fst
  · rw [dictInsert_keys_of_mem v h]
    constructor
    · exact Or.inl
    · rintro (hk | rfl)
      · exact hk
      · exact h
  · rw [dictInsert_keys_of_not_mem v h]
    simp

theorem keysNodup_dictInsert [DecidableEq κ] {d : List (κ × ν)} {k : κ}
    (v : ν) (h : (d.map Prod.fst).Nodup) :
    ((dictInsert d k v).map Prod.fst).Nodup := by
  by_cases hm : k ∈ d.map Prod.fst
  · rw [dictInsert_keys_of_mem v hm]
    exact h
  · rw [dictInsert_keys_of_not_mem v hm]
    simp [List.nodup_append, h, hm]

theorem alookup_overwrite_self [DecidableEq κ] {d : List (κ × ν)} {k : κ}
    (v : ν) (h : k ∈ d.map Prod.fst) :
    alookup (d.map fun p => if p.1 = k then (k, v) else p) k = some v := by
  induction d with
  | nil => simp at h
  | cons p ps ih =>
    by_cases hp : p.1 = k
    · rw [List.map_cons, if_pos hp, alookup, if_pos rfl]
    · rw [List.map_cons, if_neg hp, alookup, if_neg hp]
      apply ih
      simp only [List.map_cons, List.mem_cons] at h
      rcases h with h | h
      · exact absurd h.symm hp
      · exact h

theorem alookup_overwrite_ne [DecidableEq κ] {d : List (κ × ν)} {k k' : κ}
    (v : ν) (h : k' ≠ k) :
    alookup (d.map fun p => if p.1 = k then (k, v) else p) k'
      = alookup d k' := by
  induction d with
  | nil => rfl
  | cons p ps ih =>
    by_cases hp : p.1 = k
    · rw [List.map_cons, if_pos hp, alookup, if_neg (fun he => h he.symm),
        alookup, if_neg (by rw [hp]; exact fun he => h he.symm)]
      exact ih
    · rw [List.map_cons, if_neg hp, alookup, alookup]
      by_cases hp' : p.1 = k'
      · rw [if_pos hp', if_pos hp']
      · rw [if_neg hp', if_neg hp']
        exact ih

theorem alookup_dictInsert_self [DecidableEq κ] (d : List (κ × ν)) (k : κ)
    (v : ν) : alookup (dictInsert d k v) k = some v := by
  by_cases hm : k ∈ d.map Prod.fst
  · rw [dictInsert, if_pos hm]
    exact alookup_overwrite_self v hm
  · rw [dictInsert, if_neg hm,
      alookup_append_of_none _ (alookup_eq_none_of_not_mem hm), alookup,
      if_pos rfl]

theorem alookup_dictInsert_ne [DecidableEq κ] (d : List (κ × ν)) {k k' : κ}
    (v : ν) (h : k' ≠ k) :
    alookup (dictInsert d k v) k' = alookup d k' := by
  by_cases hm : k ∈ d.map Prod.fst
  · rw [dictInsert, if_pos hm]
    exact alookup_overwrite_ne v h
  · rw [dictInsert, if_neg hm]
    cases hc : alookup d k' with
    | none =>
      rw [alookup_append_of_none _ hc, alookup,
        if_neg (fun he => h he.symm)]
      rfl
    | some w => exact alookup_append_of_some _ hc

theorem alookup_pyDictUpdate_of_not_mem [DecidableEq κ]
    {entries : List (κ × ν)} {k : κ} (d : List (κ × ν))
    (h : k ∉ entries.map Prod.fst) :
    alookup (pyDictUpdate d entries) k = alookup d k := by
  induction entries generalizing d with
  | nil => rfl
  | cons e es ih =>
    simp only [List.map_cons, List.mem_cons] at h
    push_neg at h
    rw [pyDictUpdate, List.foldl_cons]
    have := ih (dictInsert d e.1 e.2) h.2
    rw [pyDictUpdate] at this
    rw [this]
    exact alookup_dictInsert_ne d e.2 h.1

theorem mem_keys_pyDictUpdate [DecidableEq κ] {entries : List (κ × ν)}
    {k : κ} (d : List (κ × ν)) :
    k ∈ (pyDictUpdate d entries).map Prod.fst
      ↔ k ∈ d.map Prod.fst ∨ k ∈ entries.map Prod.fst := by
  induction entries generalizing d with
  | nil => simp [pyDictUpdate]
  | cons e es ih =>
    rw [pyDictUpdate, List.foldl_cons]
    have := ih (dictInsert d e.1 e.2)
    rw [pyDictUpdate] at this
    rw [this, mem_keys_dictInsert]
    simp only [List.map_cons, List.mem_cons]
    tauto

theorem alookup_pyDictUpdate_of_mem [DecidableEq κ] {entries : List (κ × ν)}
    {k : κ} (d : List (κ × ν)) (h : k ∈ entries.map Prod.fst) :
    alookup (pyDictUpdate d entries) k = alookup entries.reverse k := by
  induction entries generalizing d with
  | nil => simp at h
  | cons e es ih =>
    rw [pyDictUpdate, List.foldl_cons, List.reverse_cons]
    by_cases hes : k ∈ es.map Prod.fst
    · have hrev : k ∈ es.reverse.map Prod.fst := by
        rw [List.map_reverse, List.mem_reverse]
        exact hes
      obtain ⟨v, hv⟩ := alookup_isSome_of_mem hrev
      rw [alookup_append_of_some _ hv]
      have := ih (dictInsert d e.1 e.2) hes
      rw [pyDictUpdate] at this
      rw [this, hv]
    · have hk : k = e.1 := by
        simp only [List.map_cons, List.mem_cons] at h
        tauto
      have hnone : alookup es.reverse k = none := by
        apply alookup_eq_none_of_not_mem
        rw [List.map_reverse, List.mem_reverse]
        exact hes
      rw [alookup_append_of_none _ hnone]
      have hupd := alookup_pyDictUpdate_of_not_mem (dictInsert d e.1 e.2) hes
      rw [pyDictUpdate] at hupd
      rw [hupd, hk, alookup_dictInsert_self, alookup, if_pos rfl]

theorem keysNodup_pyDictUpdate [DecidableEq κ] {entries : List (κ × ν)}
    (d : List (κ × ν)) (h : (d.map Prod.fst).Nodup) :
    ((pyDictUpdate d entries).map Prod.fst).Nodup := by
  induction entries generalizing d with
  | nil => exact h
  | cons e es ih =>
    rw [pyDictUpdate, List.foldl_cons]
    have := ih (dictInsert d e.1 e.2) (keysNodup_dictInsert e.2 h)
    rw [pyDictUpdate] at this
    exact this

theorem dictInsert_length_le [DecidableEq κ] (d : List (κ × ν)) (k : κ)
    (v : ν) : (dictInsert d k v).length ≤ d.length + 1 := by
  rw [dictInsert]
  split
  · simp
  · simp

theorem dictInsert_length_of_mem [DecidableEq κ] {d : List (κ × ν)} {k : κ}
    (v : ν) (h : k ∈ d.map Prod.fst) :
    (dictInsert d k v).length = d.length := by
  rw [dictInsert, if_pos h, List.length_map]

theorem pyDictUpdate_length_le [DecidableEq κ] (entries d : List (κ × ν)) :
    (pyDictUpdate d entries).length ≤ d.length + entries.length := by
  induction entries generalizing d with
  | nil => simp [pyDictUpdate]
  | cons e es ih =>
    rw [pyDictUpdate, List.foldl_cons]
    have hle := ih (dictInsert d e.1 e.2)
    rw [pyDictUpdate] at hle
    calc (List.foldl (fun acc e => dictInsert acc e.1 e.2)
            (dictInsert d e.1 e.2) es).length
        ≤ (dictInsert d e.1 e.2).length + es.length := hle
      _ ≤ d.length + 1 + es.length :=
          Nat.add_le_add_right (dictInsert_length_le d e.1 e.2) _
      _ = d.length + (e :: es).length := by simp [Nat.add_assoc, Nat.add_comm 1]

theorem pyDictUpdate_length_lt [DecidableEq κ] {entries d : List (κ × ν)}
    (h : ∃ e ∈ entries, e.1 ∈ d.map Prod.fst) :
    (pyDictUpdate d entries).length < d.length + entries.length := by
  induction entries generalizing d with
  | nil => simp at h
  | cons e es ih =>
    rw [pyDictUpdate, List.foldl_cons]
    obtain ⟨w, hw, hwk⟩ := h
    rcases List.mem_cons.mp hw with rfl | hwes
    · have heq := dictInsert_length_of_mem w.2 hwk
      have hle := pyDictUpdate_length_le es (dictInsert d w.1 w.2)
      rw [pyDictUpdate] at hle
      calc (List.foldl (fun acc e => dictInsert acc e.1 e.2)
              (dictInsert d w.1 w.2) es).length
          ≤ (dictInsert d w.1 w.2).length + es.length := hle
        _ = d.length + es.length := by rw [heq]
        _ < d.length + (w :: es).length := by simp
    · have hwk' : w.1 ∈ (dictInsert d e.1 e.2).map Prod.fst :=
        (mem_keys_dictInsert e.2).mpr (Or.inl hwk)
      have hlt := ih (d := dictInsert d e.1 e.2) ⟨w, hwes, hwk'⟩
      rw [pyDictUpdate] at hlt
      calc (List.foldl (fun acc e => dictInsert acc e.1 e.2)
              (dictInsert d e.1 e.2) es).length
          < (dictInsert d e.1 e.2).length + es.length := hlt
        _ ≤ d.length + 1 + es.length :=
            Nat.add_le_add_right (dictInsert_length_le d e.1 e.2) _
        _ = d.length + (e :: es).length := by simp [Nat.add_assoc, Nat.add_comm 1]

theorem countP_key_eq_zero [DecidableEq κ] {l : List (κ × ν)} {k : κ}
    (h : k ∉ l.map Prod.fst) :
    l.countP (fun p => decide (p.1 = k)) = 0 := by
  induction l with
  | nil => rfl
  | cons p ps ih =>
    simp only [List.map_cons, List.mem_cons] at h
    push_neg at h
    rw [List.countP_cons]
    have hp : (decide (p.1 = k) : Bool) = false := by
      simp
      exact fun he => h.1 he.symm
    rw [hp]
    simp [ih h.2]

theorem countP_key_eq_one [DecidableEq κ] {l : List (κ × ν)} {k : κ}
    (hn : (l.map Prod.fst).Nodup) (h : k ∈ l.map Prod.fst) :
    l.countP (fun p => decide (p.1 = k)) = 1 := by
  induction l with
  | nil => simp at h
  | cons p ps ih =>
    simp only [List.map_cons, List.nodup_cons] at hn
    rw [List.countP_cons]
    by_cases hp : p.1 = k
    · have hz : ps.countP (fun p => decide (p.1 = k)) = 0 :=
        countP_key_eq_zero (hp ▸ hn.1)
      simp [hp, hz]
    · simp only [List.map_cons, List.mem_cons] at h
      rcases h with h | h
      · exact absurd h.symm hp
      · have := ih hn.2 h
        simp [hp, this]

theorem alookup_reverse_of_keysNodup [DecidableEq κ] {l : List (κ × ν)}
    (hn : (l.map Prod.fst).Nodup) (k : κ) :
    alookup l.reverse k = alookup l k := by
  induction l with
  | nil => rfl
  | cons p ps ih =>
    simp only [List.map_cons, List.nodup_cons] at hn
    rw [List.reverse_cons]
    by_cases hp : p.1 = k
    · have hnone : alookup ps.reverse k = none := by
        apply alookup_eq_none_of_not_mem
        rw [List.map_reverse, List.mem_reverse]
        exact hp ▸ hn.1
      rw [alookup_append_of_none _ hnone]
      simp only [alookup, if_pos hp]
    · have hrec : alookup ps.reverse k = alookup ps k := ih hn.2
      simp only [alookup, if_neg hp]
      cases hc : alookup ps.reverse k with
      | none =>
        rw [alookup_append_of_none _ hc]
        simp only [alookup, if_neg hp]
        rw [← hrec, hc]
      | some w =>
        rw [alookup_append_of_some _ hc, ← hrec, hc]

theorem alookup_map_value [DecidableEq κ] (l : List (κ × ν)) (g : ν → μ)
    (k : κ) : alookup (l.map fun e => (e.1, g e.2)) k
      = (alookup l k).map g := by
  induction l with
  | nil => rfl
  | cons p ps ih =>
    rw [List.map_cons, alookup, alookup]
    by_cases hp : p.1 = k
    · rw [if_pos hp, if_pos hp]
      rfl
    · rw [if_neg hp, if_neg hp]
      exact ih

theorem keys_map_tag (l : List (κ × ν)) (t : String) :
    ((l.map fun e => (e.1, (t, e.2))).map Prod.fst) = l.map Prod.fst := by
  rw [List.map_map]
  rfl

/-- C3: a prediction key occurring in both sampled lists yields exactly one
`cfdict` entry, and that entry is the LIME one (written second, so the last
write wins): the stored value is the LIME tag with the value of the last
LIME occurrence of the key. -/
theorem lime_overwrites_shap [DecidableEq κ] (shap_cfs lime_cfs : List (κ × ν))
    (k : κ) (_hs : k ∈ shap_cfs.map Prod.fst)
    (hl : k ∈ lime_cfs.map Prod.fst) :
    (buildCfdict shap_cfs lime_cfs).countP (fun p => decide (p.1 = k)) = 1
      ∧ alookup (buildCfdict shap_cfs lime_cfs) k
        = (alookup lime_cfs.reverse k).map (fun m => ("LIME", m))
      ∧ ∃ m, alookup (buildCfdict shap_cfs lime_cfs) k
        = some ("LIME", m) := by
  have hlL : k ∈ (lime_cfs.map fun e => (e.1, ("LIME", e.2))).map Prod.fst := by
    rw [keys_map_tag]
    exact hl
  have hLdict : k ∈ (pyDict (lime_cfs.map fun e =>
      (e.1, ("LIME", e.2)))).map Prod.fst :=
    (mem_keys_pyDictUpdate []).mpr (Or.inr hlL)
  have hLnodup : ((pyDict (lime_cfs.map fun e =>
      (e.1, ("LIME", e.2)))).map Prod.fst).Nodup :=
    keysNodup_pyDictUpdate [] (by simp)
  have hrevmap : (lime_cfs.map fun e => (e.1, ("LIME", e.2))).reverse
      = lime_cfs.reverse.map fun e => (e.1, ("LIME", e.2)) := by
    rw [List.map_reverse]
  have hmain : alookup (buildCfdict shap_cfs lime_cfs) k
      = (alookup lime_cfs.reverse k).map (fun m => ("LIME", m)) := by
    rw [buildCfdict, alookup_pyDictUpdate_of_mem _ hLdict,
      alookup_reverse_of_keysNodup hLnodup, pyDict,
      alookup_pyDictUpdate_of_mem _ hlL, hrevmap]
    exact alookup_map_value _ _ k
  refine ⟨?_, hmain, ?_⟩
  · apply countP_key_eq_one
    · apply keysNodup_pyDictUpdate
      exact keysNodup_pyDictUpdate [] (by simp)
    · rw [buildCfdict, mem_keys_pyDictUpdate]
      exact Or.inr hLdict
  · have hlrev : k ∈ lime_cfs.reverse.map Prod.fst := by
      rw [List.map_reverse, List.mem_reverse]
      exact hl
    obtain ⟨m, hm⟩ := alookup_isSome_of_mem hlrev
    exact ⟨m, by rw [hmain, hm]; rfl⟩

/-- C3 witness: a concrete key in both lists, discharging the hypotheses. -/
theorem lime_overwrites_shap_witness :
    (buildCfdict [((1 : ℕ), (10 : ℕ))] [(1, 20)]).countP
        (fun p => decide (p.1 = 1)) = 1
      ∧ alookup (buildCfdict [((1 : ℕ), (10 : ℕ))] [(1, 20)]) 1
        = (alookup ([(1, 20)] : List (ℕ × ℕ)).reverse 1).map
            (fun m => ("LIME", m))
      ∧ ∃ m, alookup (buildCfdict [((1 : ℕ), (10 : ℕ))] [(1, 20)]) 1
        = some ("LIME", m) :=
  lime_overwrites_shap [(1, 10)] [(1, 20)] 1 (by decide) (by decide)

/-- C4: the counterfactual dictionary never has more entries than the two
sampled lists combined, and has strictly fewer as soon as some prediction
key occurs in both lists. -/
theorem cfdict_size_bound [DecidableEq κ] (shap_cfs lime_cfs : List (κ × ν)) :
    (buildCfdict shap_cfs lime_cfs).length
        ≤ shap_cfs.length + lime_cfs.length
      ∧ ((∃ k, k ∈ shap_cfs.map Prod.fst ∧ k ∈ lime_cfs.map Prod.fst) →
        (buildCfdict shap_cfs lime_cfs).length
          < shap_cfs.length + lime_cfs.length) := by
  have hS : (pyDict (shap_cfs.map fun e =>
      (e.1, ("SHAP", e.2)))).length ≤ shap_cfs.length := by
    have := pyDictUpdate_length_le
      (shap_cfs.map fun e => (e.1, ("SHAP", e.2))) []
    simpa [pyDict] using this
  have hL : (pyDict (lime_cfs.map fun e =>
      (e.1, ("LIME", e.2)))).length ≤ lime_cfs.length := by
    have := pyDictUpdate_length_le
      (lime_cfs.map fun e => (e.1, ("LIME", e.2))) []
    simpa [pyDict] using this
  constructor
  · calc (buildCfdict shap_cfs lime_cfs).length
        ≤ (pyDict (shap_cfs.map fun e => (e.1, ("SHAP", e.2)))).length
          + (pyDict (lime_cfs.map fun e => (e.1, ("LIME", e.2)))).length :=
          pyDictUpdate_length_le _ _
      _ ≤ shap_cfs.length + lime_cfs.length := Nat.add_le_add hS hL
  · rintro ⟨k, hks, hkl⟩
    have hkS : k ∈ (pyDict (shap_cfs.map fun e =>
        (e.1, ("SHAP", e.2)))).map Prod.fst := by
      apply (mem_keys_pyDictUpdate []).mpr
      rw [keys_map_tag]
      exact Or.inr hks
    have hkL : k ∈ (pyDict (lime_cfs.map fun e =>
        (e.1, ("LIME", e.2)))).map Prod.fst := by
      apply (mem_keys_pyDictUpdate []).mpr
      rw [keys_map_tag]
      exact Or.inr hkl
    obtain ⟨e, he, hek⟩ := List.mem_map.mp hkL
    have hstrict := pyDictUpdate_length_lt
      ⟨e, he, by rw [hek]; exact hkS⟩
    exact lt_of_lt_of_le hstrict (Nat.add_le_add hS hL)

theorem mem_dropDupRows [DecidableEq α] {seen l : List α} {x : α} :
    x ∈ dropDupRows seen l ↔ x ∈ l ∧ x ∉ seen := by
  induction l generalizing seen with
  | nil => simp [dropDupRows]
  | cons y xs ih =>
    rw [dropDupRows]
    split
    case isTrue hy =>
      rw [ih]
      constructor
      · rintro ⟨hx, hxs⟩
        exact ⟨List.mem_cons_of_mem _ hx, hxs⟩
      · rintro ⟨hx, hxs⟩
        rcases List.mem_cons.mp hx with rfl | hx
        · exact absurd hy hxs
        · exact ⟨hx, hxs⟩
    case isFalse hy =>
      constructor
      · intro hx
        rcases List.mem_cons.mp hx with rfl | hx
        · exact ⟨List.mem_cons_self _ _, hy⟩
        · obtain ⟨hx', hns⟩ := ih.mp hx
          exact ⟨List.mem_cons_of_mem _ hx',
            fun hc => hns (List.mem_append_left _ hc)⟩
      · rintro ⟨hx, hns⟩
        rcases List.mem_cons.mp hx with rfl | hx
        · exact List.mem_cons_self _ _
        · by_cases hxy : x = y
          · subst hxy
            exact List.mem_cons_self _ _
          · apply List.mem_cons_of_mem
            apply ih.mpr
            refine ⟨hx, fun hc => ?_⟩
            rcases List.mem_append.mp hc with hc | hc
            · exact hns hc
            · exact hxy (List.mem_singleton.mp hc)

theorem nodup_dropDupRows [DecidableEq α] (seen l : List α) :
    (dropDupRows seen l).Nodup := by
  induction l generalizing seen with
  | nil => exact List.nodup_nil
  | cons y xs ih =>
    rw [dropDupRows]
    split
    · exact ih seen
    · refine List.nodup_cons.mpr ⟨?_, ih (seen ++ [y])⟩
      intro hmem
      have := (mem_dropDupRows.mp hmem).2
      simp at this

theorem dropDupRows_eq_self [DecidableEq α] {l : List α} (seen : List α)
    (hn : l.Nodup) (hd : ∀ x ∈ l, x ∉ seen) : dropDupRows seen l = l := by
  induction l generalizing seen with
  | nil => rfl
  | cons y xs ih =>
    rw [List.nodup_cons] at hn
    rw [dropDupRows, if_neg (hd y (List.mem_cons_self y xs))]
    congr 1
    apply ih (seen ++ [y]) hn.2
    intro x hx hc
    rcases List.mem_append.mp hc with hc | hc
    · exact hd x (List.mem_cons_of_mem _ hx) hc
    · exact hn.1 (List.mem_singleton.mp hc ▸ hx)

/-- C8: dropping exact duplicate rows of the display table is idempotent. -/
theorem drop_duplicates_idempotent (l : List Row) :
    drop_duplicates (drop_duplicates l) = drop_duplicates l := by
  rw [drop_duplicates, drop_duplicates]
  exact dropDupRows_eq_self [] (nodup_dropDupRows [] l) (by simp)

theorem join_append_str (l₁ l₂ : List String) :
    String.join (l₁ ++ l₂) = String.join l₁ ++ String.join l₂ := by
  rw [String.join_eq, String.join_eq, String.join_eq]
  apply String.ext
  simp

theorem tooltipLoop_spec (F : String → String) :
    ∀ (feats : List (String × Cell)) (mask : List Bool),
      mask.length = feats.length →
      tooltipLoop F feats mask
        = (((feats.zip mask).filter fun p => !p.2).map
             (fun p => _tooltip_format [p.1.1, F p.1.1, _formatter p.1.2]),
           feats.map (fun p =>
             _original_feature_tooltip_format [p.1, F p.1, _formatter p.2]),
           ((feats.zip mask).filter fun p => !p.2).length)
  | [], mask => by
    intro h
    have hm : mask = [] := List.length_eq_zero.mp (by simpa using h)
    subst hm
    rfl
  | f :: fs, [] => by
    intro h
    simp at h
  | (fname, fv) :: fs, b :: bs => by
    intro h
    have hlen : bs.length = fs.length := by simpa using h
    have ih := tooltipLoop_spec F fs bs hlen
    cases b with
    | true =>
      simp only [tooltipLoop, ih, List.zip_cons_cons, List.filter_cons,
        Bool.not_true, if_true]
      simp
    | false =>
      simp only [tooltipLoop, ih, List.zip_cons_cons, List.filter_cons,
        Bool.not_false, if_false]
      simp

theorem filter_changed_nil (feats : List (String × Cell)) (mask : List Bool)
    (h : mask.all (fun b => b) = true) :
    (feats.zip mask).filter (fun p => !p.2) = [] := by
  induction feats generalizing mask with
  | nil => rfl
  | cons f fs ih =>
    cases mask with
    | nil => rfl
    | cons b bs =>
      simp only [List.all_cons, Bool.and_eq_true] at h
      rw [List.zip_cons_cons, List.filter_cons]
      rw [h.1]
      simp only [Bool.not_true]
      rw [if_neg (by simp)]
      exact ih bs h.2

theorem filter_changed_pos (feats : List (String × Cell)) (mask : List Bool)
    (hlen : mask.length = feats.length)
    (h : mask.all (fun b => b) = false) :
    0 < ((feats.zip mask).filter (fun p => !p.2)).length := by
  induction feats generalizing mask with
  | nil =>
    have hm : mask = [] := List.length_eq_zero.mp (by simpa using hlen)
    subst hm
    simp at h
  | cons f fs ih =>
    cases mask with
    | nil => simp at hlen
    | cons b bs =>
      rw [List.zip_cons_cons, List.filter_cons]
      cases b with
      | false => simp
      | true =>
        simp only [Bool.not_true, if_neg (by simp : ¬(false = true))]
        simp only [List.all_cons, Bool.true_and] at h
        exact ih bs (by simpa using hlen) h

theorem join_singleton_str (a : String) : String.join [a] = a := by
  rw [String.join_eq]
  apply String.ext
  simp

/-- C6: a record whose preservation mask is all-true (zero changed features)
produces the `Original Input` tooltip listing every feature and no
`Found by` row, while a record with at least one changed feature produces
the `Counterfactual` tooltip listing exactly the mask-false features and
ending with the `Found by` row naming the originating explainer. -/
theorem tooltip_structure (F : String → String) (feats : List (String × Cell))
    (mask : List Bool) (src cname : String) (val : Cell)
    (hlen : mask.length = feats.length) :
    (mask.all (fun b => b) = true →
      rowDifferences F feats mask = 0
        ∧ format_cf_tooltip (rowTooltipRaw F feats mask src) cname val
            (decide (rowDifferences F feats mask = 0))
          = "<h3>Original Input</h3>"
            ++ ((cname.splitOn "from <b").headD "").trim ++ ": "
            ++ _formatter val
            ++ "<table>"
            ++ String.join (feats.map fun p =>
                _original_feature_tooltip_format [p.1, F p.1, _formatter p.2])
            ++ "</table>")
      ∧ (mask.all (fun b => b) = false →
        0 < rowDifferences F feats mask
          ∧ format_cf_tooltip (rowTooltipRaw F feats mask src) cname val
              (decide (rowDifferences F feats mask = 0))
            = "<h3>Counterfactual</h3>"
              ++ "Change " ++ cname ++ " to "
              ++ bold_green_html (_formatter val) ++ " by changing:"
              ++ "<table>"
              ++ (String.join (((feats.zip mask).filter fun p => !p.2).map
                    fun p => _tooltip_format [p.1.1, F p.1.1, _formatter p.1.2])
                  ++ _original_feature_tooltip_format ["Found by", src, "", ""])
              ++ "</table>") := by
  have hspec := tooltipLoop_spec F feats mask hlen
  have hdiffdef : rowDifferences F feats mask
      = ((feats.zip mask).filter fun p => !p.2).length := by
    rw [rowDifferences, hspec]
  constructor
  · intro hall
    have hnil := filter_changed_nil feats mask hall
    have hdiff : rowDifferences F feats mask = 0 := by
      rw [hdiffdef, hnil]
      rfl
    refine ⟨hdiff, ?_⟩
    have hraw : rowTooltipRaw F feats mask src
        = String.join (feats.map fun p =>
            _original_feature_tooltip_format [p.1, F p.1, _formatter p.2]) := by
      rw [rowTooltipRaw, hspec, hnil]
      simp
    rw [hdiff, hraw]
    simp [format_cf_tooltip]
  · intro hall
    have hpos0 := filter_changed_pos feats mask hlen hall
    have hdiffpos : 0 < rowDifferences F feats mask := by
      rw [hdiffdef]
      exact hpos0
    refine ⟨hdiffpos, ?_⟩
    have hdec : decide (rowDifferences F feats mask = 0) = false := by
      simp [Nat.pos_iff_ne_zero.mp hdiffpos]
    have hne : ((feats.zip mask).filter fun p => !p.2).length ≠ 0 :=
      Nat.pos_iff_ne_zero.mp hpos0
    have hraw : rowTooltipRaw F feats mask src
        = String.join (((feats.zip mask).filter fun p => !p.2).map
            fun p => _tooltip_format [p.1.1, F p.1.1, _formatter p.1.2])
          ++ _original_feature_tooltip_format ["Found by", src, "", ""] := by
      rw [rowTooltipRaw, hspec]
      simp only [if_neg hne]
      rw [join_append_str, join_singleton_str]
    rw [hdec, hraw]
    simp [format_cf_tooltip]

/-- C6 witness: one changed and one unchanged concrete record. -/
theorem tooltip_structure_witness :
    (([true] : List Bool).all (fun b => b) = true →
      rowDifferences (fun _ => "30") [("age", Cell.num 30)] [true] = 0
        ∧ format_cf_tooltip
            (rowTooltipRaw (fun _ => "30") [("age", Cell.num 30)] [true] "SHAP")
            "y" (Cell.num 1)
            (decide (rowDifferences (fun _ => "30")
              [("age", Cell.num 30)] [true] = 0))
          = "<h3>Original Input</h3>"
            ++ (("y".splitOn "from <b").headD "").trim ++ ": "
            ++ _formatter (Cell.num 1)
            ++ "<table>"
            ++ String.join ([("age", Cell.num 30)].map fun p =>
                _original_feature_tooltip_format
                  [p.1, (fun _ => "30") p.1, _formatter p.2])
            ++ "</table>")
      ∧ (([true] : List Bool).all (fun b => b) = false →
        0 < rowDifferences (fun _ => "30") [("age", Cell.num 30)] [true]
          ∧ format_cf_tooltip
              (rowTooltipRaw (fun _ => "30") [("age", Cell.num 30)] [true]
                "SHAP") "y" (Cell.num 1)
              (decide (rowDifferences (fun _ => "30")
                [("age", Cell.num 30)] [true] = 0))
            = "<h3>Counterfactual</h3>"
              ++ "Change " ++ "y" ++ " to "
              ++ bold_green_html (_formatter (Cell.num 1)) ++ " by changing:"
              ++ "<table>"
              ++ (String.join ((([("age", Cell.num 30)].zip
                    ([true] : List Bool)).filter fun p => !p.2).map
                    fun p => _tooltip_format
                      [p.1.1, (fun _ => "30") p.1.1, _formatter p.1.2])
                  ++ _original_feature_tooltip_format
                      ["Found by", "SHAP", "", ""])
              ++ "</table>") :=
  tooltip_structure (fun _ => "30") [("age", Cell.num 30)] [true] "SHAP" "y"
    (Cell.num 1) rfl

/-- C9: with no harvested counterfactuals the pipeline fails while building
the display table: the empty frame has no `Diff` column, the lookup error
propagates, and no dashboard value is produced. -/
theorem empty_cfs_pipeline_error (fraction : ℚ)
    (original_features : List (String × Cell))
    (original_output_values : List (String × String))
    (rngS rngL : ℕ → ℕ) (rand : ℕ → ℚ) :
    tyrusRunPipeline fraction original_features original_output_values
      [] [] rngS rngL rand = Except.error "KeyError: Diff" := by
  have hsample : sampleCFs fraction ([] : List (Prediction × List Bool)) []
      rngS rngL = ([], []) := by
    rw [sampleCFs]
    split <;> simp [npChoice, pyInt]
  rw [tyrusRunPipeline, hsample]
  rfl

theorem mapM_ok_or_error (f : β → Except String γ) (l : List β) (msg : String)
    (h : ∀ x ∈ l, (∃ y, f x = Except.ok y) ∨ f x = Except.error msg) :
    (∃ ys, l.mapM f = Except.ok ys) ∨ l.mapM f = Except.error msg := by
  induction l with
  | nil => exact Or.inl ⟨[], rfl⟩
  | cons a as ih =>
    rw [List.mapM_cons]
    rcases h a (List.mem_cons_self _ _) with ⟨y, hy⟩ | hy
    · rcases ih (fun x hx => h x (List.mem_cons_of_mem _ hx)) with
        ⟨ys, hys⟩ | hys
      · exact Or.inl ⟨y :: ys, by rw [hy, hys]; rfl⟩
      · refine Or.inr ?_
        rw [hy, hys]
        rfl
    · refine Or.inr ?_
      rw [hy]
      rfl

theorem mapM_error_of_mem (f : β → Except String γ) (l : List β) (msg : String)
    (hall : ∀ x ∈ l, (∃ y, f x = Except.ok y) ∨ f x = Except.error msg)
    (hbad : ∃ x ∈ l, f x = Except.error msg) :
    l.mapM f = Except.error msg := by
  induction l with
  | nil =>
    obtain ⟨x, hx, _⟩ := hbad
    simp at hx
  | cons a as ih =>
    rw [List.mapM_cons]
    rcases hall a (List.mem_cons_self _ _) with ⟨y, hy⟩ | hy
    · obtain ⟨x, hx, hfx⟩ := hbad
      rcases List.mem_cons.mp hx with rfl | hx
      · rw [hy] at hfx
        exact absurd hfx (by simp)
      · have := ih (fun z hz => hall z (List.mem_cons_of_mem _ hz)) ⟨x, hx, hfx⟩
        rw [hy, this]
        rfl
    · rw [hy]
      rfl

theorem mem_enumFrom_getD [Inhabited β] (l : List β) (n i : ℕ)
    (hi : i < l.length) : (n + i, l.getD i default) ∈ l.enumFrom n := by
  induction l generalizing n i with
  | nil => simp at hi
  | cons a as ih =>
    cases i with
    | zero => simp [List.enumFrom]
    | succ i =>
      have hi' : i < as.length := by simpa using hi
      have := ih (n + 1) i hi'
      rw [List.enumFrom]
      apply List.mem_cons_of_mem
      have harith : n + 1 + i = n + (i + 1) := by omega
      rw [harith] at this
      simpa using this

theorem outputCell_ok_or_error (cns : List String) (io : ℕ × Output) :
    (∃ y, outputCell cns io = Except.ok y)
      ∨ outputCell cns io = Except.error "IndexError" := by
  rw [outputCell]
  cases hc : cns.get? io.1 with
  | some c => exact Or.inl ⟨(c, Cell.num io.2.num), rfl⟩
  | none => exact Or.inr rfl

theorem buildRow_ok_or_indexError (cns : List String) (F : String → String)
    (pred : Prediction) (src : String) (mask : List Bool) :
    (∃ r, buildRow cns F pred src mask = Except.ok r)
      ∨ buildRow cns F pred src mask = Except.error "IndexError" := by
  rcases mapM_ok_or_error (outputCell cns) pred.outputs.enum "IndexError"
      (fun io _ => outputCell_ok_or_error cns io) with ⟨ys, hys⟩ | hys
  · refine Or.inl ⟨ys ++
      [("Tooltip Raw", Cell.str (rowTooltipRaw F pred.features mask src)),
       ("Unchanged", Cell.bool (decide (rowDifferences F pred.features mask = 0))),
       ("Diff", Cell.num ((rowDifferences F pred.features mask : ℕ) : ℚ))], ?_⟩
    rw [buildRow, hys]
    rfl
  · refine Or.inr ?_
    rw [buildRow, hys]
    rfl

theorem buildRow_error_of_long (cns : List String) (F : String → String)
    (pred : Prediction) (src : String) (mask : List Bool)
    (h : cns.length < pred.outputs.length) :
    buildRow cns F pred src mask = Except.error "IndexError" := by
  have hinner : pred.outputs.enum.mapM (outputCell cns)
      = Except.error "IndexError" := by
    apply mapM_error_of_mem _ _ _ (fun io _ => outputCell_ok_or_error cns io)
    refine ⟨(cns.length, pred.outputs.getD cns.length default), ?_, ?_⟩
    · have := mem_enumFrom_getD pred.outputs 0 cns.length h
      simpa [List.enum] using this
    · rw [outputCell]
      have hnone : cns.get? cns.length = none :=
        List.get?_eq_none.mpr (le_refl _)
      rw [hnone]
  rw [buildRow, hinner]
  rfl

theorem mkOutputColumnNames_ok (outputs : List Output)
    (oO : List (String × String))
    (h : ∀ o ∈ outputs, (alookup oO o.name).isSome = true) :
    ∃ cns, mkOutputColumnNames outputs oO = Except.ok cns
      ∧ cns.length = outputs.length := by
  induction outputs with
  | nil => exact ⟨[], rfl, rfl⟩
  | cons o os ih =>
    obtain ⟨v, hv⟩ := Option.isSome_iff_exists.mp (h o (List.mem_cons_self _ _))
    obtain ⟨cns, hcns, hlen⟩ := ih (fun x hx => h x (List.mem_cons_of_mem _ hx))
    refine ⟨(output_html o.name ++ " from " ++ bold_red_html v) :: cns, ?_,
      by simp [hlen]⟩
    rw [mkOutputColumnNames, List.mapM_cons, hv]
    rw [mkOutputColumnNames] at hcns
    rw [hcns]
    rfl

theorem exceptBind_ok (a : γ) (f : γ → Except String δ) :
    (Except.ok a >>= f : Except String δ) = f a := rfl

theorem exceptBind_error (msg : String) (f : γ → Except String δ) :
    (Except.error msg >>= f : Except String δ) = Except.error msg := rfl

/-- C10: the display table's output column names, output names and the
plotted output dimensions are fixed by the first `cfdict` entry alone
(unchanged under any replacement of the tail), and a later prediction with
more outputs than the first makes table building fail with the unguarded
index error. -/
theorem first_entry_fixes_columns
    (original_features : List (String × Cell))
    (original_output_values : List (String × String))
    (p0 : Prediction) (i0 : String × List Bool)
    (rest rest' : List CfEntry) (df : List Row) (rand : ℕ → ℚ)
    (e : CfEntry) (hmem : e ∈ rest)
    (hlong : p0.outputs.length < e.1.outputs.length)
    (hnames : ∀ o ∈ p0.outputs,
      (alookup original_output_values o.name).isSome = true) :
    datasourceColumnNames ((p0, i0) :: rest) original_output_values
        = datasourceColumnNames ((p0, i0) :: rest') original_output_values
      ∧ datasourceOutputNames ((p0, i0) :: rest)
        = datasourceOutputNames ((p0, i0) :: rest')
      ∧ get_byproduct_cf_plot ((p0, i0) :: rest) df
        = get_byproduct_cf_plot ((p0, i0) :: rest') df
      ∧ generate_counterfactual_datasource original_features
          original_output_values ((p0, i0) :: rest) rand
        = Except.error "IndexError" := by
  obtain ⟨cns, hcns, hlen⟩ :=
    mkOutputColumnNames_ok p0.outputs original_output_values hnames
  refine ⟨rfl, rfl, rfl, ?_⟩
  have hdcn : datasourceColumnNames ((p0, i0) :: rest) original_output_values
      = Except.ok cns := by
    rw [datasourceColumnNames]
    simpa using hcns
  have hrows : ((p0, i0) :: rest).mapM (fun en =>
      buildRow cns
        (fun n => ((alookup original_features n).map _formatter).getD "")
        en.1 en.2.1 en.2.2) = Except.error "IndexError" := by
    apply mapM_error_of_mem
    · intro x _
      exact buildRow_ok_or_indexError cns _ x.1 x.2.1 x.2.2
    · refine ⟨e, List.mem_cons_of_mem _ hmem, ?_⟩
      apply buildRow_error_of_long
      rw [hlen]
      exact hlong
  rw [generate_counterfactual_datasource, hdcn, exceptBind_ok, hrows,
    exceptBind_error]

/-- C10 witness: a first entry with one output followed by an entry with two
outputs, discharging the hypotheses at concrete data. -/
theorem first_entry_fixes_columns_witness :
    datasourceColumnNames [(predOneOutput, ("SHAP", [])),
        (predTwoOutputs, ("LIME", []))] [("y", "1.00")]
        = datasourceColumnNames [(predOneOutput, ("SHAP", []))] [("y", "1.00")]
      ∧ datasourceOutputNames [(predOneOutput, ("SHAP", [])),
          (predTwoOutputs, ("LIME", []))]
        = datasourceOutputNames [(predOneOutput, ("SHAP", []))]
      ∧ get_byproduct_cf_plot [(predOneOutput, ("SHAP", [])),
          (predTwoOutputs, ("LIME", []))] []
        = get_byproduct_cf_plot [(predOneOutput, ("SHAP", []))] []
      ∧ generate_counterfactual_datasource [] [("y", "1.00")]
          [(predOneOutput, ("SHAP", [])), (predTwoOutputs, ("LIME", []))]
          (fun _ => 0)
        = Except.error "IndexError" :=
  first_entry_fixes_columns [] [("y", "1.00")] predOneOutput ("SHAP", [])
    [(predTwoOutputs, ("LIME", []))] [] [] (fun _ => 0)
    (predTwoOutputs, ("LIME", []))
    (List.mem_cons_self _ _)
    (by simp [predOneOutput, predTwoOutputs])
    (by
      intro o ho
      simp only [predOneOutput, List.mem_singleton] at ho
      subst ho
      simp [alookup])
